import Mathlib

/-!
Verification of the index↔color encoding scheme of
`dense_correspondence_manipulation/mesh_processing/mesh_render.py`
(class `MeshColorizer`).

The Python functions are embedded as executable Lean definitions:

* Python `int` arithmetic is modelled by `Int` (or `Nat` where the source
  values are provably non-negative);
* `np.base_repr(n, base=2)` is the most-significant-digit-first list of
  binary digits of `n` (`[0]` for `n = 0`), so a Python digit string is
  modelled as a `List Nat` of digit values, character `i` of the string
  being element `i` of the list;
* `str.zfill(24)` left-pads the list with zeros up to length 24;
* Python string slicing `s[a:b]` is `(l.drop a).take (b - a)`;
* `int(s, 2)` re-interprets the most-significant-first digit list as a
  number, i.e. `Nat.ofDigits 2` of the reversed list;
* a NumPy `[H,W,3]` image is a `List (List (Nat × Nat × Nat))` of 8-bit
  pixels, and the `int64` arrays produced from it are `List (List Int)`
  (the values involved are at most `255·65025 + 255·255 + 255 < 2^63`,
  so `Int` is exact for the source's `int64` arithmetic);
* a `vtkUnsignedCharArray` with 3 components is modelled as the list of
  its 3-tuples.
-/

namespace MeshRender

/-- The module-level constant `SQUARED_255 = 65025` (`= 255**2`). -/
def SQUARED_255 : Nat := 65025

/-- `np.base_repr(n, base=2)`: binary digits of `n`, most significant first;
`"0"` (i.e. `[0]`) for `n = 0`. Modelled for the non-negative arguments the
claims quantify over. -/
def base_repr (n : Nat) : List Nat :=
  if n = 0 then [0] else (Nat.digits 2 n).reverse

/-- Python `str.zfill 24`-style padding: left-pad the digit list with zeros
to length at least `k` (a longer list is returned unchanged). -/
def zfill (k : Nat) (l : List Nat) : List Nat :=
  List.replicate (k - l.length) 0 ++ l

/-- Python `int(s, 2)` on a most-significant-first binary digit list. -/
def int_of_base2 (l : List Nat) : Nat :=
  Nat.ofDigits 2 l.reverse

/-- `MeshColorizer.index_to_color(idx)`:
`idx_str = np.base_repr(idx+1, base=2)`, `idx_str = idx_str.zfill(24)`,
`r_str = idx_str[0:8]`, `g_str = idx_str[8:16]`, `b_str = idx_str[16:24]`,
`rgb = (int(r_str, 2), int(g_str, 2), int(b_str, 2))`. -/
def index_to_color (idx : Nat) : Nat × Nat × Nat :=
  let idx_str := zfill 24 (base_repr (idx + 1))
  let r_str := (idx_str.drop 0).take 8
  let g_str := (idx_str.drop 8).take 8
  let b_str := (idx_str.drop 16).take 8
  (int_of_base2 r_str, int_of_base2 g_str, int_of_base2 b_str)

/-- `MeshColorizer.color_to_index(color)`:
`idx = SQUARED_255 * color[0] + 255 * color[1] + color[2]; idx -= - 1`.
The channels are 8-bit values (`r,g,b ∈ [0,255]` per the docstring); the
result is a Python `int`, i.e. `Int`. -/
def color_to_index (color : Nat × Nat × Nat) : Int :=
  let idx : Int := SQUARED_255 * (color.1 : Int) + 255 * (color.2.1 : Int) + (color.2.2 : Int)
  idx - (- 1)

/-- The elementwise arithmetic that `MeshColorizer.rgb_img_to_idx_img`
applies to one pixel of the (int64-cast) image:
`idx_img = idx_img[:,:,0] * SQUARED_255 + idx_img[:,:,1]*255 + idx_img[:,:,2]`
followed by `idx_img -= 1`. -/
def rgb_pixel_to_idx (c : Nat × Nat × Nat) : Int :=
  (c.1 : Int) * SQUARED_255 + (c.2.1 : Int) * 255 + (c.2.2 : Int) - 1

/-- The `[H,W]` array of per-pixel values computed inside
`MeshColorizer.rgb_img_to_idx_img` (the value of its local `idx_img`
after the `idx_img -= 1` statement). -/
def idx_img_arith (rgb_image : List (List (Nat × Nat × Nat))) : List (List Int) :=
  rgb_image.map (fun row => row.map rgb_pixel_to_idx)

/-- `MeshColorizer.rgb_img_to_idx_img(rgb_image)`: the body computes the
local `idx_img` but contains no `return` statement, so the Python function
returns `None` (modelled as `none`). -/
def rgb_img_to_idx_img (rgb_image : List (List (Nat × Nat × Nat))) : Option (List (List Int)) :=
  let _idx_img := idx_img_arith rgb_image
  none

/-- `MeshColorizer.make_color_array(num_cells)`: row `i` of the array is
`index_to_color(i)`, for `i` in `[0, num_cells)`. -/
def make_color_array (num_cells : Nat) : List (Nat × Nat × Nat) :=
  (List.range num_cells).map index_to_color

/-- `MeshColorizer.make_vtk_color_array(num_cells)`: the returned
`vtkUnsignedCharArray` holds, as tuple `i`, `index_to_color(i)` for `i` in
`[0, num_cells)`; it is modelled as the list of its tuples. Neither this
function nor its caller `add_colors_to_mesh` performs any capacity check. -/
def make_vtk_color_array (num_cells : Nat) : List (Nat × Nat × Nat) :=
  (List.range num_cells).map index_to_color

/-- Proof-side helper (not from the source): the least-significant-first
binary digit list of `v`, zero-padded on the most-significant side to
length `24` when shorter; the `idx_str` of `index_to_color` is its
reversal. -/
def padLE (v : Nat) : List Nat :=
  Nat.digits 2 v ++ List.replicate (24 - (Nat.digits 2 v).length) 0

/-! ### Helper lemmas about the binary-digit manipulation -/

/-- A list of zero digits has value zero. -/
lemma ofDigits_replicate_zero (b k : Nat) :
    Nat.ofDigits b (List.replicate k 0) = 0 := by
  induction k with
  | zero => simp [Nat.ofDigits_nil]
  | succ k ih => simp [List.replicate_succ, Nat.ofDigits_cons, ih]

lemma zfill_base_repr (v : Nat) (hv : v ≠ 0) :
    zfill 24 (base_repr v) = (padLE v).reverse := by
  simp [zfill, base_repr, padLE, hv, List.reverse_append]

lemma padLE_ofDigits (v : Nat) : Nat.ofDigits 2 (padLE v) = v := by
  simp [padLE, Nat.ofDigits_append, Nat.ofDigits_digits, ofDigits_replicate_zero]

lemma padLE_lt_two (v : Nat) : ∀ x ∈ padLE v, x < 2 := by
  intro x hx
  rcases List.mem_append.mp hx with h | h
  · exact Nat.digits_lt_base (by norm_num) h
  · simp [List.eq_of_mem_replicate h]

lemma padLE_length (v : Nat) (hv : v < 2 ^ 24) : (padLE v).length = 24 := by
  rcases Nat.eq_zero_or_pos v with h0 | h0
  · subst h0; simp [padLE]
  · have hlen : (Nat.digits 2 v).length ≤ 24 := by
      rw [Nat.digits_len 2 v (by norm_num) (by omega)]
      have := Nat.log_lt_of_lt_pow (y := v) (b := 2) (x := 24) (by omega) hv
      omega
    simp only [padLE, List.length_append, List.length_replicate]
    omega

/-- The value of an initial segment of a binary digit list is the value of
the list modulo `2 ^ k`. -/
lemma ofDigits_take_eq_mod (p : List Nat) (k : Nat) (hp : ∀ x ∈ p, x < 2) :
    Nat.ofDigits 2 (p.take k) = Nat.ofDigits 2 p % 2 ^ k := by
  by_cases hk : k ≤ p.length
  · have hsplit : Nat.ofDigits 2 p =
        Nat.ofDigits 2 (p.take k) + 2 ^ k * Nat.ofDigits 2 (p.drop k) := by
      conv_lhs => rw [← List.take_append_drop k p]
      rw [Nat.ofDigits_append, List.length_take, Nat.min_eq_left hk]
    have hlt : Nat.ofDigits 2 (p.take k) < 2 ^ k := by
      have := Nat.ofDigits_lt_base_pow_length (b := 2) (l := p.take k) (by norm_num)
        (fun x hx => hp x (List.take_subset k p hx))
      rwa [List.length_take, Nat.min_eq_left hk] at this
    rw [hsplit, Nat.add_mul_mod_self_left, Nat.mod_eq_of_lt hlt]
  · push_neg at hk
    rw [List.take_of_length_le (le_of_lt hk)]
    have hlt : Nat.ofDigits 2 p < 2 ^ k := by
      have h1 := Nat.ofDigits_lt_base_pow_length (b := 2) (l := p) (by norm_num) hp
      have h2 : (2 : Nat) ^ p.length ≤ 2 ^ k := Nat.pow_le_pow_right (by norm_num) (le_of_lt hk)
      omega
    rw [Nat.mod_eq_of_lt hlt]

/-- The value of the tail segment of a binary digit list is the value of
the list divided by `2 ^ k`. -/
lemma ofDigits_drop_eq_div (p : List Nat) (k : Nat) (hp : ∀ x ∈ p, x < 2) :
    Nat.ofDigits 2 (p.drop k) = Nat.ofDigits 2 p / 2 ^ k := by
  by_cases hk : k ≤ p.length
  · have hsplit : Nat.ofDigits 2 p =
        Nat.ofDigits 2 (p.take k) + 2 ^ k * Nat.ofDigits 2 (p.drop k) := by
      conv_lhs => rw [← List.take_append_drop k p]
      rw [Nat.ofDigits_append, List.length_take, Nat.min_eq_left hk]
    have hlt : Nat.ofDigits 2 (p.take k) < 2 ^ k := by
      have := Nat.ofDigits_lt_base_pow_length (b := 2) (l := p.take k) (by norm_num)
        (fun x hx => hp x (List.take_subset k p hx))
      rwa [List.length_take, Nat.min_eq_left hk] at this
    rw [hsplit, Nat.add_mul_div_left _ _ (Nat.pos_pow_of_pos k (by norm_num)),
      Nat.div_eq_of_lt hlt, Nat.zero_add]
  · push_neg at hk
    rw [List.drop_of_length_le (le_of_lt hk)]
    have hlt : Nat.ofDigits 2 p < 2 ^ k := by
      have h1 := Nat.ofDigits_lt_base_pow_length (b := 2) (l := p) (by norm_num) hp
      have h2 : (2 : Nat) ^ p.length ≤ 2 ^ k := Nat.pow_le_pow_right (by norm_num) (le_of_lt hk)
      omega
    simp [Nat.ofDigits_nil, Nat.div_eq_of_lt hlt]

/-- In-range behaviour of `index_to_color`: for `idx + 1 < 2 ^ 24` the
result is the three 8-bit groups of `idx + 1`. -/
lemma index_to_color_spec (idx : Nat) (h : idx + 1 < 2 ^ 24) :
    index_to_color idx =
      ((idx + 1) / 2 ^ 16 % 2 ^ 8, (idx + 1) / 2 ^ 8 % 2 ^ 8, (idx + 1) % 2 ^ 8) := by
  have hv : idx + 1 ≠ 0 := by omega
  have hlen : (padLE (idx + 1)).length = 24 := padLE_length _ h
  have hp := padLE_lt_two (idx + 1)
  have hof := padLE_ofDigits (idx + 1)
  simp only [index_to_color, int_of_base2, List.drop_zero]
  rw [zfill_base_repr _ hv]
  -- the red channel: the top 8 bits
  have hr : (padLE (idx + 1)).reverse.take 8 = ((padLE (idx + 1)).drop 16).reverse := by
    rw [List.take_reverse, hlen]
  -- the green channel: the middle 8 bits
  have hg : ((padLE (idx + 1)).reverse.drop 8).take 8 =
      (((padLE (idx + 1)).take 16).drop 8).reverse := by
    rw [List.drop_reverse, hlen]
    rw [List.take_reverse, List.length_take, hlen]
    norm_num
  -- the blue channel: the bottom 8 bits
  have hb : ((padLE (idx + 1)).reverse.drop 16).take 8 =
      ((padLE (idx + 1)).take 8).reverse := by
    rw [List.drop_reverse, hlen]
    exact List.take_of_length_le (by simp [hlen])
  rw [hr, hg, hb, List.reverse_reverse, List.reverse_reverse, List.reverse_reverse]
  rw [ofDigits_drop_eq_div _ _ hp, hof]
  rw [ofDigits_drop_eq_div _ _ (fun x hx => hp x (List.take_subset 16 _ hx)),
    ofDigits_take_eq_mod _ _ hp, hof]
  rw [ofDigits_take_eq_mod _ _ hp, hof]
  have h1 : (idx + 1) / 2 ^ 16 % 2 ^ 8 = (idx + 1) / 2 ^ 16 := by
    apply Nat.mod_eq_of_lt
    omega
  have h2 : (idx + 1) % 2 ^ 16 / 2 ^ 8 = (idx + 1) / 2 ^ 8 % 2 ^ 8 := by
    have : (2 : Nat) ^ 16 = 2 ^ 8 * 2 ^ 8 := by norm_num
    rw [this, Nat.mod_mul_right_div_self]
  rw [h1, h2]

/-- In the valid range, `index_to_color` is injective. -/
lemma index_to_color_inj (i j : Nat) (hi : i + 1 < 2 ^ 24) (hj : j + 1 < 2 ^ 24)
    (heq : index_to_color i = index_to_color j) : i = j := by
  rw [index_to_color_spec i hi, index_to_color_spec j hj] at heq
  simp only [Prod.mk.injEq] at heq
  norm_num at heq hi hj
  omega

/-- In the valid range, `index_to_color` never returns the background
color `(0,0,0)`. -/
lemma index_to_color_ne_black (i : Nat) (hi : i + 1 < 2 ^ 24) :
    index_to_color i ≠ (0, 0, 0) := by
  rw [index_to_color_spec i hi]
  intro h
  rw [Prod.mk.injEq, Prod.mk.injEq] at h
  norm_num at h hi
  omega

/-- Concrete evaluation just above the last representable index:
`idx = 2^24 - 1`, so `idx + 1 = 2^24` has 25 binary digits and the
least-significant one is silently dropped by the `[0:24]` slicing. -/
lemma index_to_color_16777215 : index_to_color 16777215 = (128, 0, 0) := by
  norm_num [index_to_color, base_repr, zfill, int_of_base2, Nat.digits_def']
  decide

/-- Concrete evaluation at `idx = 2^24`: `idx + 1 = 2^24 + 1` also slices
down to the color `(128, 0, 0)`, colliding with `idx = 2^24 - 1`. -/
lemma index_to_color_16777216 : index_to_color 16777216 = (128, 0, 0) := by
  norm_num [index_to_color, base_repr, zfill, int_of_base2, Nat.digits_def']
  decide
/-! ### Claim theorems -/

/-- C1: the claimed round trip `color_to_index (index_to_color idx) = idx`
fails on the code at `idx = 0`: `index_to_color 0 = (0,0,1)` but
`color_to_index (0,0,1) = 2` (the `idx -= - 1` statement adds one instead
of subtracting one, contradicting the source's own comment). -/
theorem roundtrip_fails_at_zero : color_to_index (index_to_color 0) = 2 := by
  have h : index_to_color 0 = (0, 0, 1) := by
    have := index_to_color_spec 0 (by norm_num)
    norm_num at this
    exact this
  rw [h]
  norm_num [color_to_index, SQUARED_255]

/-- C2, counterexample: `color_to_index` does not return
`r·65536 + g·256 + b − 1`: at the color `(1,0,0)` the claim predicts
`65535`, but the code returns `65026 = 65025·1 + 1`. -/
theorem color_to_index_not_base256_inverse :
    color_to_index (1, 0, 0) = 65026 ∧
    ((1 : Int) * 65536 + 0 * 256 + 0 - 1 = 65535) ∧ (65026 : Int) ≠ 65535 := by
  refine ⟨?_, by norm_num, by norm_num⟩
  norm_num [color_to_index, SQUARED_255]

/-- C2, amended: for every color `(r,g,b)`, `color_to_index` returns
`65025·r + 255·g + b + 1` (multipliers `255²` and `255`, and the
`idx -= - 1` statement adds one). -/
theorem color_to_index_formula (c : Nat × Nat × Nat) :
    color_to_index c = 65025 * (c.1 : Int) + 255 * (c.2.1 : Int) + (c.2.2 : Int) + 1 := by
  simp only [color_to_index, SQUARED_255]
  push_cast
  ring

/-- C3: for `0 ≤ idx ≤ 256³ − 2`, `index_to_color idx` is the triple of
8-bit groups `((v >>> 16) &&& 0xFF, (v >>> 8) &&& 0xFF, v &&& 0xFF)` of
`v = idx + 1`; in particular `index_to_color 0 = (0,0,1)` and
`index_to_color (256³ − 2) = (255,255,255)`. -/
theorem index_to_color_as_bit_groups :
    (∀ idx : Nat, idx ≤ 256 ^ 3 - 2 →
      index_to_color idx =
        ((idx + 1) >>> 16 &&& 255, (idx + 1) >>> 8 &&& 255, (idx + 1) &&& 255)) ∧
    index_to_color 0 = (0, 0, 1) ∧
    index_to_color (256 ^ 3 - 2) = (255, 255, 255) := by
  refine ⟨?_, ?_, ?_⟩
  · intro idx h
    have h' : idx + 1 < 2 ^ 24 := by norm_num at h ⊢; omega
    rw [index_to_color_spec idx h']
    have e255 : (255 : Nat) = 2 ^ 8 - 1 := by norm_num
    simp only [Nat.shiftRight_eq_div_pow, e255, Nat.and_pow_two_sub_one_eq_mod]
  · have := index_to_color_spec 0 (by norm_num)
    norm_num at this
    exact this
  · have := index_to_color_spec (256 ^ 3 - 2) (by norm_num)
    norm_num at this
    exact this

/-- Witness for C3 at `idx = 5`. -/
theorem index_to_color_as_bit_groups_witness :
    (5 : Nat) ≤ 256 ^ 3 - 2 ∧
    index_to_color 5 = ((5 + 1) >>> 16 &&& 255, (5 + 1) >>> 8 &&& 255, (5 + 1) &&& 255) :=
  ⟨by norm_num, index_to_color_as_bit_groups.1 5 (by norm_num)⟩

/-- C4, counterexample: on the all-black `1×1` image, the per-pixel
arithmetic of `rgb_img_to_idx_img` sends the `(0,0,0)` pixel through the
`idx − 1` path to `−1` (so a pixel IS equal to `−1`), and the function
yields no index image at all (it returns `None`). -/
theorem rgb_img_black_counterexample :
    idx_img_arith [[(0, 0, 0)]] = [[-1]] ∧
    rgb_img_to_idx_img [[(0, 0, 0)]] = none := by
  refine ⟨?_, rfl⟩
  norm_num [idx_img_arith, rgb_pixel_to_idx, SQUARED_255]

/-- C4, amended: `rgb_img_to_idx_img` applies the `idx − 1` arithmetic to
every pixel, including `(0,0,0)`; on an all-`(0,0,0)` image every computed
per-pixel value is exactly `−1` (no unsigned wraparound, since the array
is signed `int64`, and no pixel equals a valid face index such as `0`),
and the function returns `None` rather than an index image. -/
theorem rgb_img_black_amended (img : List (List (Nat × Nat × Nat)))
    (h : ∀ row ∈ img, ∀ c ∈ row, c = (0, 0, 0)) :
    (∀ row ∈ idx_img_arith img, ∀ x ∈ row, x = -1) ∧
    rgb_img_to_idx_img img = none := by
  refine ⟨?_, rfl⟩
  intro row hrow x hx
  simp only [idx_img_arith, List.mem_map] at hrow
  obtain ⟨row0, hrow0, rfl⟩ := hrow
  simp only [List.mem_map] at hx
  obtain ⟨c, hc, rfl⟩ := hx
  rw [h row0 hrow0 c hc]
  norm_num [rgb_pixel_to_idx, SQUARED_255]

/-- Witness for the amended C4 on the all-black `1×1` image. -/
theorem rgb_img_black_amended_witness :
    (∀ row ∈ ([[(0, 0, 0)]] : List (List (Nat × Nat × Nat))), ∀ c ∈ row, c = (0, 0, 0)) ∧
    ((∀ row ∈ idx_img_arith [[(0, 0, 0)]], ∀ x ∈ row, x = -1) ∧
      rgb_img_to_idx_img [[(0, 0, 0)]] = none) :=
  ⟨by decide, rgb_img_black_amended [[(0, 0, 0)]] (by decide)⟩

/-- C5: `rgb_img_to_idx_img` contains no `return` statement, so it
returns `None` on every input image. -/
theorem rgb_img_to_idx_img_returns_none (rgb_image : List (List (Nat × Nat × Nat))) :
    rgb_img_to_idx_img rgb_image = none := rfl

/-- C6: the two decode paths apply opposite corrections: on every pixel
`color_to_index` computes `65025·r + 255·g + b + 1` while the elementwise
arithmetic of `rgb_img_to_idx_img` computes `65025·r + 255·g + b − 1`;
the two values differ by exactly `2` and never agree. -/
theorem decode_paths_differ_by_two (c : Nat × Nat × Nat) :
    color_to_index c = 65025 * (c.1 : Int) + 255 * (c.2.1 : Int) + (c.2.2 : Int) + 1 ∧
    rgb_pixel_to_idx c = (c.1 : Int) * 65025 + (c.2.1 : Int) * 255 + (c.2.2 : Int) - 1 ∧
    color_to_index c - rgb_pixel_to_idx c = 2 ∧
    color_to_index c ≠ rgb_pixel_to_idx c := by
  simp only [color_to_index, rgb_pixel_to_idx, SQUARED_255]
  push_cast
  refine ⟨by ring, by ring, by ring, by intro heq; omega⟩

/-- C7, counterexample: `index_to_color (256³ − 1)` does not fail: the
function has no range check and silently returns the color `(128,0,0)`
(the top 24 bits of `idx + 1 = 2^24`, the low bit being dropped by the
`[0:24]` slicing). -/
theorem index_to_color_capacity_counterexample :
    index_to_color (256 ^ 3 - 1) = (128, 0, 0) := by
  have h : (256 ^ 3 - 1 : Nat) = 16777215 := by norm_num
  rw [h]
  exact index_to_color_16777215

/-- C7, amended: `index_to_color` performs no range check; at
`idx = 256³ − 1` (and beyond) it silently returns a truncated color
instead of failing, so distinct out-of-range indices collide:
both `256³ − 1` and `256³` map to `(128,0,0)`. -/
theorem index_to_color_no_range_check :
    index_to_color (256 ^ 3 - 1) = (128, 0, 0) ∧
    index_to_color (256 ^ 3) = (128, 0, 0) ∧
    index_to_color (256 ^ 3 - 1) = index_to_color (256 ^ 3) := by
  have h1 : (256 ^ 3 - 1 : Nat) = 16777215 := by norm_num
  have h2 : (256 ^ 3 : Nat) = 16777216 := by norm_num
  rw [h1, h2, index_to_color_16777215, index_to_color_16777216]
  exact ⟨rfl, rfl, rfl⟩

/-- C8: on the valid range `[0, 256³ − 2]`, `index_to_color` is injective
and never returns the reserved background color `(0,0,0)`; consequently
the cell color table `make_color_array N` (entry `i` is
`index_to_color i`) has pairwise-distinct entries and does not contain
`(0,0,0)`, for every `N ≤ 256³ − 1`. -/
theorem index_to_color_injective_and_background :
    (∀ idx1 idx2 : Nat, idx1 ≤ 256 ^ 3 - 2 → idx2 ≤ 256 ^ 3 - 2 → idx1 ≠ idx2 →
      index_to_color idx1 ≠ index_to_color idx2) ∧
    (∀ idx : Nat, idx ≤ 256 ^ 3 - 2 → index_to_color idx ≠ (0, 0, 0)) ∧
    (∀ N : Nat, N ≤ 256 ^ 3 - 1 →
      (make_color_array N).Nodup ∧ (0, 0, 0) ∉ make_color_array N) := by
  have hrange : ∀ k : Nat, k ≤ 256 ^ 3 - 2 → k + 1 < 2 ^ 24 := by
    intro k hk
    norm_num at hk ⊢
    omega
  refine ⟨?_, ?_, ?_⟩
  · intro i j hi hj hne heq
    exact hne (index_to_color_inj i j (hrange i hi) (hrange j hj) heq)
  · intro i hi
    exact index_to_color_ne_black i (hrange i hi)
  · intro N hN
    constructor
    · refine List.Nodup.map_on ?_ (List.nodup_range N)
      intro x hx y hy hxy
      rw [List.mem_range] at hx hy
      refine index_to_color_inj x y ?_ ?_ hxy
      · norm_num at hN ⊢
        omega
      · norm_num at hN ⊢
        omega
    · intro hmem
      simp only [make_color_array, List.mem_map, List.mem_range] at hmem
      obtain ⟨i, hiN, hieq⟩ := hmem
      refine index_to_color_ne_black i ?_ hieq
      norm_num at hN ⊢
      omega

/-- Witness for C8 at `idx1 = 0`, `idx2 = 1` and `N = 3`. -/
theorem index_to_color_injective_and_background_witness :
    (0 : Nat) ≤ 256 ^ 3 - 2 ∧ (1 : Nat) ≤ 256 ^ 3 - 2 ∧ (0 : Nat) ≠ 1 ∧
    index_to_color 0 ≠ index_to_color 1 ∧
    index_to_color 0 ≠ (0, 0, 0) ∧
    (3 : Nat) ≤ 256 ^ 3 - 1 ∧
    (make_color_array 3).Nodup ∧ (0, 0, 0) ∉ make_color_array 3 :=
  ⟨by norm_num, by norm_num, by norm_num,
    index_to_color_injective_and_background.1 0 1 (by norm_num) (by norm_num) (by norm_num),
    index_to_color_injective_and_background.2.1 0 (by norm_num),
    by norm_num,
    (index_to_color_injective_and_background.2.2 3 (by norm_num)).1,
    (index_to_color_injective_and_background.2.2 3 (by norm_num)).2⟩

/-- C9, counterexample: for a cell count `N = 256³ + 1`, which exceeds the
claimed capacity `256³ − 1`, the color table is still built in full — no
CapacityExceeded failure exists anywhere in `add_colors_to_mesh` or
`make_vtk_color_array`; the out-of-capacity cell `256³` is silently
assigned the (colliding) color `(128,0,0)`. -/
theorem make_vtk_color_array_over_capacity :
    256 ^ 3 - 1 < 256 ^ 3 + 1 ∧
    (make_vtk_color_array (256 ^ 3 + 1)).length = 256 ^ 3 + 1 ∧
    (make_vtk_color_array (256 ^ 3 + 1))[256 ^ 3]? = some (128, 0, 0) := by
  refine ⟨by norm_num, ?_, ?_⟩
  · simp [make_vtk_color_array]
  · rw [make_vtk_color_array, List.getElem?_map,
      List.getElem?_range (by norm_num : (256 ^ 3 : Nat) < 256 ^ 3 + 1)]
    norm_num [index_to_color_16777216]

/-- C9, amended: neither `make_vtk_color_array` nor its caller checks the
cell count: the table is built with `N` rows for every `N`, and for
`N = 256³ + 1 > 256³ − 1` the rows `256³ − 1` and `256³` hold the same
color `(128,0,0)`. -/
theorem make_vtk_color_array_no_capacity_check :
    (∀ N : Nat, (make_vtk_color_array N).length = N) ∧
    (make_vtk_color_array (256 ^ 3 + 1))[256 ^ 3 - 1]? = some (128, 0, 0) ∧
    (make_vtk_color_array (256 ^ 3 + 1))[256 ^ 3]? = some (128, 0, 0) := by
  refine ⟨?_, ?_, ?_⟩
  · intro N
    simp [make_vtk_color_array]
  · rw [make_vtk_color_array, List.getElem?_map,
      List.getElem?_range (by norm_num : (256 ^ 3 - 1 : Nat) < 256 ^ 3 + 1)]
    norm_num [index_to_color_16777215]
  · rw [make_vtk_color_array, List.getElem?_map,
      List.getElem?_range (by norm_num : (256 ^ 3 : Nat) < 256 ^ 3 + 1)]
    norm_num [index_to_color_16777216]

/-- C10: `color_to_index` is not injective on 8-bit colors: the distinct
colors `(0,1,0)` and `(0,0,255)` both decode to `256`, and both are
actually produced by `index_to_color` (at indices `255` and `254`). -/
theorem color_to_index_not_injective :
    color_to_index (0, 1, 0) = 256 ∧
    color_to_index (0, 0, 255) = 256 ∧
    ((0, 1, 0) : Nat × Nat × Nat) ≠ (0, 0, 255) ∧
    index_to_color 255 = (0, 1, 0) ∧
    index_to_color 254 = (0, 0, 255) := by
  refine ⟨?_, ?_, by decide, ?_, ?_⟩
  · norm_num [color_to_index, SQUARED_255]
  · norm_num [color_to_index, SQUARED_255]
  · have := index_to_color_spec 255 (by norm_num)
    norm_num at this
    exact this
  · have := index_to_color_spec 254 (by norm_num)
    norm_num at this
    exact this

end MeshRender
